import Mathlib

/-
Verification development for the Iowa liquor-sales lazy pipeline
(src/iowa-sales-analyses.py).  Each section embeds one stage of the
pipeline as executable Lean definitions translated from the source:
the rule-cascade category classifier, the calendar feature deriver,
the strict type casts, the lazy operation list and its schema
resolution, the column drop plan, the size estimator and the grouped
top-N aggregation.  Machine values are modelled with Nat / Int / Rat;
fallible operations return Except / Option.
-/

namespace IowaSales

/-! ## Category classifier (source cell building df_with_categories)

The source classifies the text column "Category Name" with a chained
polars conditional: pl.when(col.str.contains(pattern)).then(label)
... .otherwise("UNCATEGORIZED").  Every pattern is a case-insensitive
(?i) alternation of literal terms, so a pattern matches exactly when
one of its terms is a substring of the value, ignoring case.  In
polars a null value makes every when-condition null, which is treated
as not matched, so a null falls through to the otherwise label. -/

/-- True when `needle` occurs as a contiguous sublist of `hay`. -/
def containsSub (hay needle : List Char) : Bool :=
  hay.tails.any (fun t => needle.isPrefixOf t)

/-- Case-insensitive substring test: models `str.contains` with a
`(?i)` literal pattern. -/
def containsCI (hay pat : String) : Bool :=
  containsSub (hay.toList.map Char.toUpper) (pat.toList.map Char.toUpper)

/-- A classification rule: the literal alternatives of the `(?i)`
pattern, and the label assigned by the `.then` branch. -/
abbrev Rule := List String × String

def whiskeyRule : Rule := (["WHISKEY", "WHISKIES", "WHISKY", "BOURBON", "SCOTCH"], "WHISKEY")
def vodkaRule : Rule := (["VODKA"], "VODKA")
def rumRule : Rule := (["RUM"], "RUM")
def tequilaRule : Rule := (["TEQUILA", "MEZCAL"], "TEQUILA & MEZCAL")
def ginRule : Rule := (["GIN"], "GIN")
def brandyRule : Rule := (["BRANDY", "BRANDIES", "COGNAC"], "BRANDY & COGNAC")
def schnappsRule : Rule := (["SCHNAPPS"], "SCHNAPPS")
def liqueurRule : Rule :=
  (["AMARETTO", "CORDIAL", "LIQUEUR", "ANISETTE", "CREME", "ROCK & RYE", "TRIPLE SEC"],
   "LIQUEURS & CORDIALS")
def specialtyRule : Rule :=
  (["AMERICAN ALCOHOL", "AMERICAN DISTILLED SPIRITS", "DISTILLED SPIRITS SPECIALTY",
    "IMPORTED DISTILLED SPIRITS", "NEUTRAL GRAIN SPIRITS"],
   "SPECIALTY & OTHER SPIRITS")
def cocktailRule : Rule := (["COCKTAIL", "RTD"], "READY-TO-DRINK")
def craftRule : Rule := (["IOWA DISTILLER"], "CRAFT/LOCAL")
def adminRule : Rule :=
  (["DECANTERS", "DELISTED", "SPECIAL ORDER", "HIGH PROOF BEER", "HOLIDAY VAP", "TEMPORARY"],
   "ADMINISTRATIVE/NON-PRODUCT")

/-- The ordered rule list of the source, in declared order. -/
def categoryRules : List Rule :=
  [whiskeyRule, vodkaRule, rumRule, tequilaRule, ginRule, brandyRule, schnappsRule,
   liqueurRule, specialtyRule, cocktailRule, craftRule, adminRule]

/-- Whether the rule's pattern matches the value. -/
def ruleMatches (s : String) (r : Rule) : Bool :=
  r.1.any (fun p => containsCI s p)

/-- First-match evaluation of an ordered rule list; no rule matching
gives the fallback label of the `.otherwise` branch. -/
def firstMatch (rules : List Rule) (s : String) : String :=
  match rules with
  | [] => "UNCATEGORIZED"
  | r :: rest => if ruleMatches s r then r.2 else firstMatch rest s

/-- The label the chained conditional writes to Major_Category for one
value of "Category Name"; a null value receives the fallback label. -/
def classifyValue : Option String → String
  | none => "UNCATEGORIZED"
  | some s => firstMatch categoryRules s

lemma firstMatch_append (s : String) (pre post : List Rule) (r : Rule)
    (hpre : ∀ r2 ∈ pre, ruleMatches s r2 = false) (hr : ruleMatches s r = true) :
    firstMatch (pre ++ r :: post) s = r.2 := by
  induction pre with
  | nil => simp [firstMatch, hr]
  | cons p rest ih =>
    have hp : ruleMatches s p = false := hpre p (List.mem_cons_self p rest)
    simp only [List.cons_append, firstMatch, hp]
    exact ih (fun r2 h2 => hpre r2 (List.mem_cons_of_mem p h2))

/-- C1: the classifier evaluates the declared rule list first-match-wins
over "Category Name": the five sample values classify to exactly the
expected labels, a null value receives the fallback label, and in
general a value matching a rule receives that rule's label whenever no
earlier rule matches (so a value also matching a later rule keeps the
earlier label). -/
theorem C1_classifier :
    ([some "Iowa Distillery Whiskey", some "Triple Sec", some "Unknown Spirit Blend",
      none, some "Premium Vodka"].map classifyValue
      = ["WHISKEY", "LIQUEURS & CORDIALS", "UNCATEGORIZED", "UNCATEGORIZED", "VODKA"]) ∧
    classifyValue none = "UNCATEGORIZED" ∧
    (∀ (s : String) (pre post : List Rule) (r : Rule),
      categoryRules = pre ++ r :: post →
      (∀ r2 ∈ pre, ruleMatches s r2 = false) →
      ruleMatches s r = true →
      classifyValue (some s) = r.2) := by
  refine ⟨by decide, rfl, ?_⟩
  intro s pre post r hEq hpre hr
  show firstMatch categoryRules s = r.2
  rw [hEq]
  exact firstMatch_append s pre post r hpre hr

/-- C1 witness: "Iowa Distillery Whiskey" matches the later CRAFT/LOCAL
rule as well, yet receives the first-matching WHISKEY label. -/
theorem C1_classifier_witness :
    ruleMatches "Iowa Distillery Whiskey" craftRule = true ∧
    classifyValue (some "Iowa Distillery Whiskey") = "WHISKEY" :=
  ⟨by decide,
   C1_classifier.2.2 "Iowa Distillery Whiskey" []
     [vodkaRule, rumRule, tequilaRule, ginRule, brandyRule, schnappsRule,
      liqueurRule, specialtyRule, cocktailRule, craftRule, adminRule]
     whiskeyRule rfl (by simp) (by decide)⟩

/-! ## Frame effect of classification (C10)

The classification stage is a single `with_columns` appending the
alias Major_Category; a row of the input frame is modelled as its
"Category Name" value together with the rest of the row, abstracted
by a type parameter, so that preservation of every pre-existing
column (name, type and values) is preservation of that component. -/

/-- The classification stage over a frame: one pass appending the
Major_Category value to each row. -/
def classifyFrame {α : Type} (rows : List (Option String × α)) :
    List (Option String × α × String) :=
  rows.map (fun r => (r.1, r.2, classifyValue r.1))

/-- C10: classification only appends the Major_Category column: the row
count is unchanged, projecting the appended column away returns the
input frame exactly, and the appended value is the classifier output
for the row's own "Category Name" value. -/
theorem C10_frame {α : Type} (rows : List (Option String × α)) :
    (classifyFrame rows).length = rows.length ∧
    (classifyFrame rows).map (fun r => (r.1, r.2.1)) = rows ∧
    ∀ r ∈ classifyFrame rows, r.2.2 = classifyValue r.1 := by
  refine ⟨by simp [classifyFrame], ?_, ?_⟩
  · induction rows with
    | nil => rfl
    | cons h t ih =>
      simpa [classifyFrame] using ih
  · intro r hr
    simp only [classifyFrame, List.mem_map] at hr
    obtain ⟨a, _, rfl⟩ := hr
    rfl

/-! ## Calendar features (source cell building df_cleaned)

The source parses "Date" with str.strptime(pl.Date, MM/DD/YYYY) and
derives Year, Month, Quarter, Weekday and is_weekend.  polars
dt.weekday returns the ISO weekday, Monday = 1 .. Sunday = 7, and the
source computes is_weekend as dt.weekday() >= 5.  Dates are modelled
as (year, month, day) in the proleptic Gregorian calendar; the ISO
weekday is computed from the day count since 1970-01-01, a Thursday. -/

def isLeap (y : Nat) : Bool := (y % 4 == 0 && y % 100 != 0) || (y % 400 == 0)

def daysInMonth (y m : Nat) : Nat :=
  if m = 2 then (if isLeap y then 29 else 28)
  else if m = 4 ∨ m = 6 ∨ m = 9 ∨ m = 11 then 30 else 31

def daysBeforeYear (y : Nat) : Nat :=
  ((List.range (y - 1970)).map (fun i => if isLeap (1970 + i) then 366 else 365)).sum

def daysBeforeMonth (y m : Nat) : Nat :=
  ((List.range (m - 1)).map (fun i => daysInMonth y (i + 1))).sum

/-- Days from 1970-01-01 to the given date. -/
def daysSinceEpoch (y m d : Nat) : Nat :=
  daysBeforeYear y + daysBeforeMonth y m + (d - 1)

/-- polars dt.weekday: the ISO weekday, Monday = 1 .. Sunday = 7
(1970-01-01 was a Thursday, weekday 4). -/
def weekdayISO (y m d : Nat) : Nat := (daysSinceEpoch y m d + 3) % 7 + 1

/-- The derived feature of the source, exactly as written there:
is_weekend = (dt.weekday() >= 5). -/
def isWeekendSource (y m d : Nat) : Bool := 5 ≤ weekdayISO y m d

/-- C3 (code_bug evidence): on Friday 2022-01-07 the source computes
weekday 5 (Monday = 1 .. Sunday = 7 convention) and marks the row
is_weekend = true, although 5 is neither 6 nor 7, so is_weekend is not
equivalent to weekday being in the set of 6 and 7 (Saturday, Sunday):
the source test weekday >= 5 also captures Friday. -/
theorem C3_friday_marked_weekend :
    weekdayISO 2022 1 7 = 5 ∧
    isWeekendSource 2022 1 7 = true ∧
    ¬ (weekdayISO 2022 1 7 = 6 ∨ weekdayISO 2022 1 7 = 7) := by
  refine ⟨by decide, by decide, ?_⟩
  intro h
  rcases h with h | h <;> revert h <;> decide

/-! ## Strict type casting and date parsing (source cell building df_cleaned)

The source casts numeric columns with pl.col(c).cast(dtype) and parses
the date column with pl.col("Date").str.strptime(pl.Date, "%m/%d/%Y").
Both polars operations keep their default strict = True: a value the
cast or the format cannot represent raises InvalidOperationError when
the query is materialized; it is not replaced by null.  A null input
value passes through any cast as null without error.  The cast of one
column is modelled generically by the partial conversion function of
its declared type. -/

inductive CastError : Type
  | invalidOperation : CastError

/-- Strict cast of one cell (polars default strict = True): null stays
null, a convertible value converts, an inconvertible value is an
InvalidOperationError. -/
def castCell {α β : Type} (conv : α → Option β) : Option α → Except CastError (Option β)
  | none => .ok none
  | some a =>
    match conv a with
    | some b => .ok (some b)
    | none => .error .invalidOperation

/-- Strict cast of a whole column: the first inconvertible value
aborts the materialization with the error. -/
def castColumnStrict {α β : Type} (conv : α → Option β) :
    List (Option α) → Except CastError (List (Option β))
  | [] => .ok []
  | c :: cs =>
    match castCell conv c with
    | .error e => .error e
    | .ok v =>
      match castColumnStrict conv cs with
      | .error e => .error e
      | .ok vs => .ok (v :: vs)

/-- Modelled from the claim's words, for comparison only: a non-strict
cast that nulls each inconvertible value and always succeeds. -/
def castColumnNulling {α β : Type} (conv : α → Option β) (col : List (Option α)) :
    List (Option β) :=
  col.map (fun c => c.bind conv)

/-- Conversion declared for "Bottles Sold": cast to Int16, defined on
the values representable in 16 signed bits. -/
def convInt16 (n : Int) : Option Int :=
  if -32768 ≤ n ∧ n ≤ 32767 then some n else none

/-- Digits of a numeral to its value. -/
def digitsToNat (l : List Char) : Nat :=
  l.foldl (fun a c => 10 * a + (c.toNat - 48)) 0

/-- Split a character list on a separator. -/
def splitOnChar (sep : Char) : List Char → List (List Char)
  | [] => [[]]
  | c :: cs =>
    match splitOnChar sep cs with
    | [] => [[c]]
    | r :: rs => if c = sep then [] :: r :: rs else (c :: r) :: rs

/-- The exact-format date parse str.strptime(pl.Date, "%m/%d/%Y"):
three slash-separated numeric fields, month and day of one or two
digits, year of four digits, forming a real calendar date. -/
def parseDateMDY (s : String) : Option (Nat × Nat × Nat) :=
  match splitOnChar '/' s.toList with
  | [ms, ds, ys] =>
    if (1 ≤ ms.length ∧ ms.length ≤ 2) ∧ ms.all Char.isDigit
        ∧ (1 ≤ ds.length ∧ ds.length ≤ 2) ∧ ds.all Char.isDigit
        ∧ ys.length = 4 ∧ ys.all Char.isDigit then
      let m := digitsToNat ms
      let d := digitsToNat ds
      let y := digitsToNat ys
      if 1 ≤ m ∧ m ≤ 12 ∧ 1 ≤ d ∧ d ≤ daysInMonth y m then some (y, m, d) else none
    else none
  | _ => none

/-- C2 counterexample: the claim, as stated, says a value that cannot
be cast under the declared type becomes null while the pipeline does
not abort.  On the source the casts are strict: the Int16 cast of the
value 40000 and the strptime of "13/45/2022" both abort the
materialization with InvalidOperationError instead of yielding the
null the claim states. -/
theorem C2_counterexample :
    castColumnStrict convInt16 [some 40000] = .error CastError.invalidOperation ∧
    castColumnStrict convInt16 [some 40000] ≠ .ok [none] ∧
    parseDateMDY "13/45/2022" = none ∧
    castColumnStrict parseDateMDY [some "13/45/2022"] = .error CastError.invalidOperation ∧
    castColumnNulling convInt16 [some 40000] = [none] := by
  refine ⟨rfl, ?_, rfl, rfl, rfl⟩
  intro h
  exact Except.noConfusion h

/-- C2 (amended): a column holding any non-null value the declared
conversion cannot represent fails the whole strict cast with
InvalidOperationError when materialized: the failure is fatal for the
query, not a per-value null. -/
theorem C2_strict_cast {α β : Type} (conv : α → Option β) (col : List (Option α))
    (a : α) (hmem : some a ∈ col) (hfail : conv a = none) :
    castColumnStrict conv col = .error CastError.invalidOperation := by
  induction col with
  | nil => cases hmem
  | cons c cs ih =>
    rcases List.mem_cons.mp hmem with h | h
    · subst h
      simp [castColumnStrict, castCell, hfail]
    · unfold castColumnStrict
      rcases hc : castCell conv c with e | v
      · cases e; rfl
      · rw [ih h]

/-- C2 witness: the strict Int16 cast of a column holding 40000 aborts
with InvalidOperationError. -/
theorem C2_strict_cast_witness :
    some (40000 : Int) ∈ [some (40000 : Int)] ∧ convInt16 40000 = none ∧
    castColumnStrict convInt16 [some 40000] = .error CastError.invalidOperation :=
  ⟨by simp, by decide, C2_strict_cast convInt16 [some 40000] 40000 (by simp) (by decide)⟩

/-! ## Lazy pipeline assembly and schema resolution (C4)

The cleaning pipeline df_cleaned is built by chaining lazy operations
on the LazyFrame: a guarded drop (the drop list is filtered against
lf.collect_schema()), unguarded numeric casts, string casts guarded by
membership in the source schema, the unguarded strptime of "Date" and
five derived columns aliased from "Date".  polars appends each lazy
operation to the logical plan without validating column references;
a reference to an absent column surfaces as ColumnNotFoundError only
when the schema is resolved or the query collected.  Assembly is
therefore a total function producing the operation list, and schema
resolution is a separate fallible evaluation of that list. -/

inductive Op : Type
  | drop (cols : List String)
  | castNum (c : String)
  | castStr (c : String)
  | parseDateCol (c : String)
  | derive (new srcCol : String)

/-- Resolving one lazy operation against the current schema: an
operation referencing an absent column is a ColumnNotFound error named
after that column. -/
def stepOp (sch : List String) : Op → Except String (List String)
  | .drop cols =>
    if cols.all (fun c => decide (c ∈ sch)) then
      .ok (sch.filter (fun c => !decide (c ∈ cols)))
    else .error "drop"
  | .castNum c => if c ∈ sch then .ok sch else .error c
  | .castStr c => if c ∈ sch then .ok sch else .error c
  | .parseDateCol c => if c ∈ sch then .ok sch else .error c
  | .derive new srcCol => if srcCol ∈ sch then .ok (sch ++ [new]) else .error srcCol

/-- Schema resolution of the whole plan, the step performed only when
the deferred query is collected. -/
def runOps (sch : List String) : List Op → Except String (List String)
  | [] => .ok sch
  | op :: ops =>
    match stepOp sch op with
    | .ok sch2 => runOps sch2 ops
    | .error e => .error e

def isError {ε α : Type} : Except ε α → Bool
  | .error _ => true
  | .ok _ => false

def ADDITIONAL_DROPS : List String :=
  ["Address", "Vendor Number", "Item Number", "Pack", "Bottle Volume (ml)",
   "State Bottle Cost", "State Bottle Retail"]

def NUMERIC_COLUMNS : List String :=
  ["Bottles Sold", "Sale (Dollars)", "Volume Sold (Liters)", "Volume Sold (Gallons)"]

def STRING_COLUMNS : List String :=
  ["Store Name", "City", "Zip Code", "County", "Category", "Category Name",
   "Vendor Name", "Item Description"]

/-- The operations the source appends before the date parse: the
guarded drop and the numeric and string casts, in source order. -/
def preOps (srcSchema nullDrops : List String) : List Op :=
  Op.drop ((nullDrops ++ ADDITIONAL_DROPS).filter (fun c => decide (c ∈ srcSchema))) ::
    (NUMERIC_COLUMNS.map Op.castNum ++
      (STRING_COLUMNS.filter (fun c => decide (c ∈ srcSchema))).map Op.castStr)

/-- The five temporal features aliased from "Date". -/
def deriveOps : List Op :=
  [Op.derive "Year" "Date", Op.derive "Month" "Date", Op.derive "Quarter" "Date",
   Op.derive "Weekday" "Date", Op.derive "is_weekend" "Date"]

/-- Assembly of df_cleaned: a total construction of the lazy plan,
mirroring the source chain.  No column reference is validated here. -/
def assemble (srcSchema nullDrops : List String) : List Op :=
  (preOps srcSchema nullDrops ++ [Op.parseDateCol "Date"]) ++ deriveOps

lemma runOps_append (sch : List String) (l1 l2 : List Op) :
    runOps sch (l1 ++ l2) =
      match runOps sch l1 with
      | .ok s2 => runOps s2 l2
      | .error e => .error e := by
  induction l1 generalizing sch with
  | nil => rfl
  | cons op ops ih =>
    simp only [List.cons_append, runOps]
    cases stepOp sch op with
    | error e => rfl
    | ok sch2 => exact ih sch2

def noDerive : Op → Bool
  | .derive _ _ => false
  | _ => true

lemma stepOp_not_mem (op : Op) (hop : noDerive op = true) (sch sch2 : List String)
    (hs : stepOp sch op = .ok sch2) (c : String) (hc : c ∉ sch) : c ∉ sch2 := by
  cases op with
  | drop cols =>
    simp only [stepOp] at hs
    split at hs
    · cases hs
      exact fun hmem => hc (List.mem_of_mem_filter hmem)
    · cases hs
  | castNum x =>
    simp only [stepOp] at hs
    split at hs
    · cases hs; exact hc
    · cases hs
  | castStr x =>
    simp only [stepOp] at hs
    split at hs
    · cases hs; exact hc
    · cases hs
  | parseDateCol x =>
    simp only [stepOp] at hs
    split at hs
    · cases hs; exact hc
    · cases hs
  | derive new srcCol => simp [noDerive] at hop

lemma runOps_error_of_missing (c : String) (ops : List Op)
    (hops : ∀ op ∈ ops, noDerive op = true) :
    ∀ sch, c ∉ sch → isError (runOps sch (ops ++ [Op.parseDateCol c])) = true := by
  induction ops with
  | nil =>
    intro sch hc
    simp [runOps, stepOp, hc, isError]
  | cons op ops ih =>
    intro sch hc
    simp only [List.cons_append, runOps]
    cases hstep : stepOp sch op with
    | error e => rfl
    | ok sch2 =>
      exact ih (fun o ho => hops o (List.mem_cons_of_mem _ ho)) sch2
        (stepOp_not_mem op (hops op (List.mem_cons_self _ _)) sch sch2 hstep c hc)

/-- C4 (amended): assembling df_cleaned is a total construction that
succeeds for every source schema; when the expected column "Date" is
absent, the failure surfaces only when the schema of the deferred
query is resolved (at collect), as an error of that resolution, not at
assembly time. -/
theorem C4_deferred_error (srcSchema nullDrops : List String)
    (h : "Date" ∉ srcSchema) :
    isError (runOps srcSchema (assemble srcSchema nullDrops)) = true := by
  have hpre : ∀ op ∈ preOps srcSchema nullDrops, noDerive op = true := by
    intro op hop
    rcases List.mem_cons.mp hop with rfl | hop2
    · rfl
    · rcases List.mem_append.mp hop2 with hop3 | hop3
      · rcases List.mem_map.mp hop3 with ⟨x, _, rfl⟩; rfl
      · rcases List.mem_map.mp hop3 with ⟨x, _, rfl⟩; rfl
  have hmain := runOps_error_of_missing "Date" (preOps srcSchema nullDrops) hpre srcSchema h
  unfold assemble
  rw [runOps_append]
  cases hr : runOps srcSchema (preOps srcSchema nullDrops ++ [Op.parseDateCol "Date"]) with
  | error e => rfl
  | ok s2 => rw [hr] at hmain; simp [isError] at hmain

/-- The expected input schema of the dataset with the "Date" column
absent: the concrete input of the C4 counterexample. -/
def schemaNoDate : List String :=
  ["Invoice/Item Number", "Store Name", "City", "Zip Code", "County", "Category",
   "Category Name", "Vendor Name", "Item Description", "Bottles Sold",
   "Sale (Dollars)", "Volume Sold (Liters)", "Volume Sold (Gallons)"]

/-- C4 counterexample: with "Date" absent from the source schema the
pipeline still assembles (assembly is total), and the missing column
becomes a deferred ColumnNotFound error at schema resolution, naming
"Date" - contradicting the claim that an absent column fails at
assembly time and never becomes a deferred error. -/
theorem C4_counterexample :
    runOps schemaNoDate (assemble schemaNoDate []) = .error "Date" := by
  rfl

/-- C4 witness: the amended theorem applied at the concrete schema
missing "Date". -/
theorem C4_deferred_error_witness :
    "Date" ∉ schemaNoDate ∧
    isError (runOps schemaNoDate (assemble schemaNoDate [])) = true :=
  ⟨by decide, C4_deferred_error schemaNoDate [] (by decide)⟩

/-! ## Column drop plan (C5, C9)

The source samples 2,000,000 rows, computes per-column null
proportions, keeps columns whose proportion is at least the threshold
(columns_to_drop), unions them with the business list ADDITIONAL_DROPS
(all_columns_to_drop) and applies the drop filtered to names of the
frame schema.  A sampled column is a (name, null count) pair; the
sample columns are the schema columns, since the sample is a prefix of
the frame.  Proportions are modelled exactly in the rationals. -/

def MISSING_VALUE_THRESHOLD : ℚ := 1 / 10

/-- Columns whose sampled null proportion reaches the threshold. -/
def columns_to_drop (sample : List (String × Nat)) (sampleLen : Nat) (t : ℚ) :
    List String :=
  (sample.filter (fun c => decide (t ≤ (c.2 : ℚ) / (sampleLen : ℚ)))).map Prod.fst

/-- The union with the business-exclusion list (the source builds
list(set(...)); only membership matters downstream). -/
def all_columns_to_drop (sample : List (String × Nat)) (sampleLen : Nat) (t : ℚ)
    (extra : List String) : List String :=
  columns_to_drop sample sampleLen t ++ extra

/-- The drop list the source actually passes to .drop: the plan
filtered to names of the schema. -/
def appliedDrops (sample : List (String × Nat)) (sampleLen : Nat) (t : ℚ)
    (extra : List String) : List String :=
  (all_columns_to_drop sample sampleLen t extra).filter
    (fun c => decide (c ∈ sample.map Prod.fst))

/-- C5: the applied drop plan holds exactly the columns whose sampled
null proportion reaches the threshold, unioned with the exclusion list
restricted to schema names (so an unknown exclusion name is silently
ignored); with a 1000-row sample and the default threshold 0.10, a
column null in 150 rows is dropped and one null in 50 rows is not. -/
theorem C5_drop_plan (sample : List (String × Nat)) (sampleLen : Nat) (t : ℚ)
    (extra : List String) :
    (∀ c, c ∈ appliedDrops sample sampleLen t extra ↔
      (c ∈ columns_to_drop sample sampleLen t ∨
        (c ∈ extra ∧ c ∈ sample.map Prod.fst))) ∧
    columns_to_drop [("X", 150), ("Y", 50)] 1000 MISSING_VALUE_THRESHOLD = ["X"] ∧
    appliedDrops [("X", 150), ("Y", 50)] 1000 MISSING_VALUE_THRESHOLD ["Unknown Name"]
      = ["X"] := by
  have hsub : ∀ c, c ∈ columns_to_drop sample sampleLen t → c ∈ sample.map Prod.fst := by
    intro c hc
    simp only [columns_to_drop, List.mem_map, List.mem_filter] at hc
    rcases hc with ⟨p, ⟨hp, _⟩, rfl⟩
    exact List.mem_map.mpr ⟨p, hp, rfl⟩
  refine ⟨?_, by norm_num [columns_to_drop, MISSING_VALUE_THRESHOLD, List.filter_cons],
    by norm_num [appliedDrops, all_columns_to_drop, columns_to_drop,
      MISSING_VALUE_THRESHOLD, List.filter_cons]; decide⟩
  intro c
  simp only [appliedDrops, all_columns_to_drop, List.mem_filter, List.mem_append,
    decide_eq_true_eq]
  constructor
  · rintro ⟨h1 | h1, h2⟩
    · exact Or.inl h1
    · exact Or.inr ⟨h1, h2⟩
  · rintro (h1 | ⟨h1, h2⟩)
    · exact ⟨Or.inl h1, hsub c h1⟩
    · exact ⟨Or.inr h1, h2⟩

/-! The drop application of the source line,
.drop([col for col in all_columns_to_drop if col in lf.collect_schema()]):
polars .drop keeps its default strict = True, erroring on an unknown
name, but the comprehension guard restricts the list to names of the
schema being dropped from, so the guarded application never errors. -/

/-- Apply a drop plan to a schema the way the source does: strict drop
of the plan names filtered to those present. -/
def dropGuarded (sch plan : List String) : Except String (List String) :=
  if (plan.filter (fun c => decide (c ∈ sch))).all (fun c => decide (c ∈ sch)) then
    .ok (sch.filter (fun c => !decide (c ∈ plan.filter (fun c => decide (c ∈ sch)))))
  else .error "ColumnNotFound"

lemma filter_eq_nil_of {α : Type} (p : α → Bool) (l : List α)
    (h : ∀ a ∈ l, p a = false) : l.filter p = [] := by
  induction l with
  | nil => rfl
  | cons x xs ih =>
    rw [List.filter_cons, if_neg (by simp [h x (List.mem_cons_self x xs)])]
    exact ih (fun a ha => h a (List.mem_cons_of_mem x ha))

lemma filter_eq_self_of {α : Type} (p : α → Bool) (l : List α)
    (h : ∀ a ∈ l, p a = true) : l.filter p = l := by
  induction l with
  | nil => rfl
  | cons x xs ih =>
    rw [List.filter_cons, if_pos (h x (List.mem_cons_self x xs))]
    rw [ih (fun a ha => h a (List.mem_cons_of_mem x ha))]

lemma dropGuarded_ok (sch plan : List String) :
    dropGuarded sch plan =
      .ok (sch.filter (fun c => !decide (c ∈ plan.filter (fun c => decide (c ∈ sch))))) := by
  unfold dropGuarded
  rw [if_pos]
  apply List.all_eq_true.mpr
  intro c hc
  exact (List.mem_filter.mp hc).2

/-- C9: applying the drop plan is idempotent - the second application
removes nothing further and returns the once-dropped schema unchanged -
and applying a plan none of whose names is in the schema is a no-op
returning the schema, not an error. -/
theorem C9_drop_idempotent (sch plan : List String) :
    (∃ s1, dropGuarded sch plan = .ok s1 ∧ dropGuarded s1 plan = .ok s1) ∧
    ((∀ c ∈ plan, c ∉ sch) → dropGuarded sch plan = .ok sch) := by
  constructor
  · refine ⟨sch.filter (fun c => !decide (c ∈ plan.filter (fun c => decide (c ∈ sch)))),
      dropGuarded_ok sch plan, ?_⟩
    have hnil : plan.filter (fun c => decide
        (c ∈ sch.filter (fun c => !decide (c ∈ plan.filter (fun c => decide (c ∈ sch))))))
        = [] := by
      apply filter_eq_nil_of
      intro a ha
      apply decide_eq_false
      intro hmem
      have h2 := List.mem_filter.mp hmem
      have h3 : a ∈ plan.filter (fun c => decide (c ∈ sch)) :=
        List.mem_filter.mpr ⟨ha, by simpa using h2.1⟩
      simp [h3] at h2
    rw [dropGuarded_ok, hnil]
    congr 1
    apply filter_eq_self_of
    intro a _
    simp
  · intro h
    have hnil : plan.filter (fun c => decide (c ∈ sch)) = [] := by
      apply filter_eq_nil_of
      intro a ha
      exact decide_eq_false (h a ha)
    rw [dropGuarded_ok, hnil]
    congr 1
    apply filter_eq_self_of
    intro a _
    simp

/-- C9 witness: dropping a plan whose only name is absent from the
schema is a no-op on a concrete schema. -/
theorem C9_drop_idempotent_witness :
    (∀ c ∈ (["Address"] : List String), c ∉ (["City", "County"] : List String)) ∧
    dropGuarded ["City", "County"] ["Address"] = .ok ["City", "County"] :=
  ⟨by decide, (C9_drop_idempotent ["City", "County"] ["Address"]).2 (by decide)⟩

/-! ## Size estimator (C6)

The source collects the prefix sample lf.head(100_000), takes its
estimated byte size and computes
estimated_total_bytes = sample_bytes * (num_rows / 100_000).
The divisor is the fixed literal 100_000, not the number of rows the
sample actually holds.  The frame is modelled by the byte size of each
of its rows, so the sample byte size is the sum over the first
min(100000, num_rows) rows; arithmetic is exact in the rationals. -/

/-- The estimate exactly as the source computes it. -/
def estimated_total_bytes (rowBytes : List ℚ) : ℚ :=
  (rowBytes.take 100000).sum * ((rowBytes.length : ℚ) / 100000)

/-- The source computation with the requested sample size abstracted:
the source instantiates it at 100000. -/
def estimateCodeAt (sampleReq : Nat) (rowBytes : List ℚ) : ℚ :=
  (rowBytes.take sampleReq).sum * ((rowBytes.length : ℚ) / (sampleReq : ℚ))

/-- Modelled from the claim's words, for comparison only: divide the
sample bytes by the clamped sample row count, then scale by the row
count, with a zero estimate for an empty frame. -/
def estimateSpecClaimAt (sampleReq : Nat) (rowBytes : List ℚ) : ℚ :=
  if min sampleReq rowBytes.length = 0 then 0
  else ((rowBytes.take (min sampleReq rowBytes.length)).sum
    / ((min sampleReq rowBytes.length : Nat) : ℚ)) * (rowBytes.length : ℚ)

/-- The claimed formula at the source sample size. -/
def estimateSpecClaim (rowBytes : List ℚ) : ℚ := estimateSpecClaimAt 100000 rowBytes

/-- C6 counterexample: for a one-row frame of 8 bytes the claimed
formula with the clamped sample size gives 8 bytes, but the source
divides by the fixed 100000 and returns 1/12500 bytes: the claim, as
stated, is false on the source for any frame smaller than the
requested sample. -/
theorem C6_counterexample :
    estimated_total_bytes [8] = 1 / 12500 ∧
    estimateSpecClaim [8] = 8 ∧
    estimated_total_bytes [8] ≠ estimateSpecClaim [8] := by
  have ht : ∀ n : Nat, 1 ≤ n → ([(8 : ℚ)] : List ℚ).take n = [8] :=
    fun n hn => List.take_of_length_le (by simpa using hn)
  refine ⟨?_, ?_, ?_⟩ <;>
    norm_num [estimated_total_bytes, estimateSpecClaim, estimateSpecClaimAt,
      ht 100000 (by norm_num), ht 1 le_rfl]

/-- C6 (amended): the source estimate is
sample_bytes * row_count / 100000 where the sample is the prefix of
min(100000, row_count) rows: for the empty frame the estimate is zero
with no division by a row count, and whenever the requested sample
size (100000 in the source) does not exceed the row count, the source
formula agrees with the claimed clamped formula.  For frames smaller
than the requested sample the divisor stays the fixed request (see the
counterexample). -/
theorem C6_estimator (rowBytes : List ℚ) :
    estimated_total_bytes rowBytes
      = (rowBytes.take 100000).sum * (rowBytes.length : ℚ) / 100000 ∧
    estimated_total_bytes rowBytes = estimateCodeAt 100000 rowBytes ∧
    estimateSpecClaim rowBytes = estimateSpecClaimAt 100000 rowBytes ∧
    estimated_total_bytes [] = 0 ∧
    (∀ sampleReq : Nat, sampleReq ≤ rowBytes.length →
      estimateCodeAt sampleReq rowBytes = estimateSpecClaimAt sampleReq rowBytes) := by
  refine ⟨by rw [estimated_total_bytes, mul_div_assoc], rfl, rfl,
    by simp [estimated_total_bytes], ?_⟩
  intro k h
  have hmin : min k rowBytes.length = k := min_eq_left h
  by_cases hk : k = 0
  · subst hk
    simp [estimateCodeAt, estimateSpecClaimAt]
  · rw [estimateSpecClaimAt, hmin, if_neg hk, estimateCodeAt]
    ring

/-- C6 witness: on a two-row frame with a requested sample of two rows
the source formula and the claimed clamped formula agree. -/
theorem C6_estimator_witness :
    2 ≤ ([3, 5] : List ℚ).length ∧
    estimateCodeAt 2 [3, 5] = estimateSpecClaimAt 2 [3, 5] :=
  ⟨by norm_num, (C6_estimator [3, 5]).2.2.2.2 2 (by norm_num)⟩

/-! ## Grouped top-N aggregation (C7, C8 support)

top_categories groups by one key, sums the measure per group, sorts by
the summed measure descending and truncates with head(n).  A frame row
is a (group key, measure) pair, the measure exact in the rationals.
polars group_by without maintain_order gives no guaranteed group
order; the model lists each key once in some order (dedupKeys), and the
sort is a stable insertion sort, so every proved property below is
independent of the group order except the tie order inside the
concrete scenario, where only set membership is asserted. -/

/-- Each key once (the source group_by key set). -/
def dedupKeys : List String → List String
  | [] => []
  | k :: ks => if k ∈ ks then dedupKeys ks else k :: dedupKeys ks

lemma mem_dedupKeys (l : List String) : ∀ k ∈ dedupKeys l, k ∈ l := by
  induction l with
  | nil => intro k h; exact absurd h (List.not_mem_nil k)
  | cons x xs ih =>
    intro k h
    rw [dedupKeys] at h
    by_cases hx : x ∈ xs
    · rw [if_pos hx] at h
      exact List.mem_cons_of_mem x (ih k h)
    · rw [if_neg hx] at h
      rcases List.mem_cons.mp h with rfl | h2
      · exact List.mem_cons_self k xs
      · exact List.mem_cons_of_mem x (ih k h2)

/-- The per-group sum of the measure: summarize of the group's rows. -/
def sumFor (rows : List (String × ℚ)) (k : String) : ℚ :=
  ((rows.filter (fun r => decide (r.1 = k))).map Prod.snd).sum

/-- The grouped aggregation result before sorting. -/
def groupSumTable (rows : List (String × ℚ)) : List (String × ℚ) :=
  (dedupKeys (rows.map Prod.fst)).map (fun k => (k, sumFor rows k))

/-- The sort order of the source .sort call: by the reduced measure,
descending by default. -/
def rowLe (descending : Bool) (p q : String × ℚ) : Bool :=
  if descending then decide (q.2 ≤ p.2) else decide (p.2 ≤ q.2)

/-- Stable insertion into a sorted list. -/
def insRow {α : Type} (le : α → α → Bool) (p : α) : List α → List α
  | [] => [p]
  | q :: qs => if le p q then p :: q :: qs else q :: insRow le p qs

/-- Stable insertion sort. -/
def sortRows {α : Type} (le : α → α → Bool) : List α → List α
  | [] => []
  | p :: ps => insRow le p (sortRows le ps)

/-- group_top_n of the source: group, reduce, sort by the reduction,
truncate to the first n groups. -/
def group_top_n (rows : List (String × ℚ)) (n : Nat) (descending : Bool) :
    List (String × ℚ) :=
  (sortRows (rowLe descending) (groupSumTable rows)).take n

lemma mem_insRow {α : Type} (le : α → α → Bool) (p : α) (l : List α) (q : α)
    (h : q ∈ insRow le p l) : q = p ∨ q ∈ l := by
  induction l with
  | nil => simpa [insRow] using h
  | cons x xs ih =>
    rw [insRow] at h
    by_cases hle : le p x = true
    · rw [if_pos hle] at h
      rcases List.mem_cons.mp h with h1 | h1
      · exact Or.inl h1
      · exact Or.inr h1
    · rw [if_neg hle] at h
      rcases List.mem_cons.mp h with rfl | h1
      · exact Or.inr (List.mem_cons_self q xs)
      · rcases ih h1 with h2 | h2
        · exact Or.inl h2
        · exact Or.inr (List.mem_cons_of_mem x h2)

lemma pairwise_insRow {α : Type} (le : α → α → Bool)
    (htot : ∀ a b, le a b = false → le b a = true)
    (htrans : ∀ a b c, le a b = true → le b c = true → le a c = true)
    (p : α) (l : List α) (hl : l.Pairwise (fun a b => le a b = true)) :
    (insRow le p l).Pairwise (fun a b => le a b = true) := by
  induction l with
  | nil => simp [insRow]
  | cons x xs ih =>
    rw [List.pairwise_cons] at hl
    obtain ⟨hx, hxs⟩ := hl
    rw [insRow]
    by_cases hle : le p x = true
    · rw [if_pos hle]
      refine List.Pairwise.cons ?_ (List.Pairwise.cons hx hxs)
      intro b hb
      rcases List.mem_cons.mp hb with rfl | hb2
      · exact hle
      · exact htrans p x b hle (hx b hb2)
    · rw [if_neg hle]
      refine List.Pairwise.cons ?_ (ih hxs)
      intro b hb
      rcases mem_insRow le p xs b hb with rfl | hb2
      · exact htot b x (by simp at hle; exact hle)
      · exact hx b hb2

lemma pairwise_sortRows {α : Type} (le : α → α → Bool)
    (htot : ∀ a b, le a b = false → le b a = true)
    (htrans : ∀ a b c, le a b = true → le b c = true → le a c = true)
    (l : List α) : (sortRows le l).Pairwise (fun a b => le a b = true) := by
  induction l with
  | nil => simp [sortRows]
  | cons x xs ih => exact pairwise_insRow le htot htrans x _ ih

lemma mem_sortRows {α : Type} (le : α → α → Bool) (l : List α) :
    ∀ q ∈ sortRows le l, q ∈ l := by
  induction l with
  | nil => intro q h; simp [sortRows] at h
  | cons x xs ih =>
    intro q h
    rw [sortRows] at h
    rcases mem_insRow le x (sortRows le xs) q h with rfl | h2
    · exact List.mem_cons_self q xs
    · exact List.mem_cons_of_mem x (ih q h2)

/-- C7: group_top_n returns at most n rows, sorted by the reduced
measure in the requested direction (descending by default), every
returned row is the per-group summarize result of a group key of the
frame, and over three groups with sums A 300, B 500, C 500 with n = 2
descending, the returned group set is exactly B and C. -/
theorem C7_group_top_n (rows : List (String × ℚ)) (n : Nat) (descending : Bool) :
    (group_top_n rows n descending).length ≤ n ∧
    (group_top_n rows n descending).Pairwise
      (fun p q => rowLe descending p q = true) ∧
    (∀ p ∈ group_top_n rows n descending,
      p.1 ∈ rows.map Prod.fst ∧ p.2 = sumFor rows p.1) ∧
    ("B" ∈ (group_top_n [("A", 300), ("B", 500), ("C", 500)] 2 true).map Prod.fst ∧
      "C" ∈ (group_top_n [("A", 300), ("B", 500), ("C", 500)] 2 true).map Prod.fst ∧
      (group_top_n [("A", 300), ("B", 500), ("C", 500)] 2 true).length = 2) := by
  have htot : ∀ a b : String × ℚ, rowLe descending a b = false → rowLe descending b a = true := by
    intro a b h
    cases descending <;> simp [rowLe] at h ⊢ <;> exact le_of_lt h
  have htrans : ∀ a b c : String × ℚ, rowLe descending a b = true →
      rowLe descending b c = true → rowLe descending a c = true := by
    intro a b c h1 h2
    cases descending <;> simp [rowLe] at h1 h2 ⊢
    · exact le_trans h1 h2
    · exact le_trans h2 h1
  refine ⟨?_, ?_, ?_, ?_⟩
  · rw [group_top_n, List.length_take]
    exact min_le_left _ _
  · exact List.Pairwise.sublist (List.take_sublist n _)
      (pairwise_sortRows _ htot htrans _)
  · intro p hp
    have h1 : p ∈ sortRows (rowLe descending) (groupSumTable rows) :=
      (List.take_sublist n _).subset hp
    have h2 : p ∈ groupSumTable rows := mem_sortRows _ _ p h1
    rw [groupSumTable] at h2
    rcases List.mem_map.mp h2 with ⟨k, hk, rfl⟩
    exact ⟨mem_dedupKeys _ k hk, rfl⟩
  · norm_num [group_top_n, groupSumTable, dedupKeys, sumFor, sortRows, insRow, rowLe,
      List.filter_cons,
      (by decide : ("B" : String) ≠ "A"), (by decide : ("C" : String) ≠ "A"),
      (by decide : ("A" : String) ≠ "B"), (by decide : ("C" : String) ≠ "B"),
      (by decide : ("A" : String) ≠ "C"), (by decide : ("B" : String) ≠ "C")]

/-! ## Ratio measure of city_efficiency (C8)

city_efficiency groups by City, aggregates Total Sales as a sum over
"Sale (Dollars)" and Num Transactions as n_unique over "Invoice/Item
Number", then divides the two with a plain / and no guard.  A frame
row is (city, sale, invoice).  Every group of a group_by holds at
least one row and n_unique counts at least one value on a nonempty
group, so the denominator of the ratio is never zero: the zero
denominator the claim speaks about cannot occur in this aggregation. -/

/-- polars n_unique: the number of distinct values. -/
def nUnique (l : List String) : Nat := (dedupKeys l).length

/-- The Num Transactions aggregate of city_efficiency for one city. -/
def numTransactions (rows : List (String × ℚ × String)) (city : String) : Nat :=
  nUnique ((rows.filter (fun r => decide (r.1 = city))).map (fun r => r.2.2))

lemma dedupKeys_length_pos (l : List String) (h : l ≠ []) :
    1 ≤ (dedupKeys l).length := by
  induction l with
  | nil => exact absurd rfl h
  | cons x xs ih =>
    rw [dedupKeys]
    by_cases hx : x ∈ xs
    · rw [if_pos hx]
      exact ih (List.ne_nil_of_mem hx)
    · rw [if_neg hx]
      simp

/-- Support for C8: every city that appears in the frame yields a group
whose Num Transactions count is at least 1, so the denominator of the
Avg Sale per Txn ratio is never zero and the division-by-zero recovery
the claim describes is unreachable in this aggregation. -/
theorem city_efficiency_denominator_positive (rows : List (String × ℚ × String))
    (city : String) (h : city ∈ rows.map Prod.fst) :
    1 ≤ numTransactions rows city := by
  rcases List.mem_map.mp h with ⟨r, hr, rfl⟩
  apply dedupKeys_length_pos
  apply List.ne_nil_of_mem (a := r.2.2)
  exact List.mem_map.mpr ⟨r, List.mem_filter.mpr ⟨hr, by simp⟩, rfl⟩

end IowaSales
